import Mathlib

/-!
# Verification of the plan-agents orchestration core

Shallow embedding of the turn-taking / signalling logic of the
`plan-agents` repository (a dual-AI collaboration framework: a Next.js
web layer over a SQLite conversation store, with a Python backend that
coordinates two agents).  The web API routes are embedded directly from
their TypeScript sources; backend pieces that are documented but whose
Python sources are not part of the web layer are modelled from the
repository documentation and the specification, and are marked as such
in their doc comments.
-/

namespace PlanAgents

/-- Message author role, from the `Role` enum documented in
`DOCUMENTATION.md` (values stored as text in the `messages` table). -/
inductive Role where
  | Human
  | AgentA
  | AgentB
deriving DecidableEq, Repr

/-- Character-list prefix test: does the second list start with the first? -/
def firstMatches : List Char → List Char → Bool
  | [], _ => true
  | _ :: _, [] => false
  | c :: cs, d :: ds => c == d && firstMatches cs ds

/-- Substring test on character lists: does `tok` occur contiguously in the list? -/
def containsTok (tok : List Char) : List Char → Bool
  | [] => firstMatches tok []
  | c :: cs => firstMatches tok (c :: cs) || containsTok tok cs

/-- Keywords that address Agent A, from `DOCUMENTATION.md`
("Agent Mention System"): English and Vietnamese token sets. -/
def agentAMentionTokens : List String :=
  ["@a", "agent a", "agenta", "a,", "a:", "bạn a", "theo a"]

/-- Keywords that address Agent B, from `DOCUMENTATION.md`
("Agent Mention System"): English and Vietnamese token sets. -/
def agentBMentionTokens : List String :=
  ["@b", "agent b", "agentb", "b,", "b:", "bạn b", "theo b"]

/-- Lower-cased character sequence of a string (case-insensitive comparison). -/
def lowerChars (s : String) : List Char :=
  s.data.map Char.toLower

/-- Case-insensitive mention detection for Agent A. -/
def mentionsAgentA (content : String) : Bool :=
  agentAMentionTokens.any (fun t => containsTok t.data (lowerChars content))

/-- Case-insensitive mention detection for Agent B. -/
def mentionsAgentB (content : String) : Bool :=
  agentBMentionTokens.any (fun t => containsTok t.data (lowerChars content))

/-- Turn-taking rule `get_next_role`, embedded from the pseudocode in
`DOCUMENTATION.md` ("Turn-Taking Logic"): after a human message the
Agent-B mention test runs first, then the Agent-A test, defaulting to
Agent A; after an agent message the other agent takes the turn. -/
def get_next_role (currentRole : Role) (lastMessageContent : String) : Role :=
  match currentRole with
  | Role.Human =>
      if mentionsAgentB lastMessageContent then Role.AgentB
      else if mentionsAgentA lastMessageContent then Role.AgentA
      else Role.AgentA
  | Role.AgentA => Role.AgentB
  | Role.AgentB => Role.AgentA

/-! ## Conversation store (SQLite `sessions` / `messages` tables) -/

/-- A row of the `sessions` table (`id TEXT`, `topic`, `status`,
`started_at`); timestamps are embedded as naturals ordered like the
ISO strings the code stores. -/
structure Session where
  id : String
  topic : String
  status : String
  startedAt : Nat
deriving DecidableEq, Repr

/-- A row of the `messages` table; `id` is the `INTEGER PRIMARY KEY`
assigned in insertion order, `signal` is the stored text
(`continue` / `handover` / `stop`). -/
structure Message where
  id : Nat
  sessionId : String
  role : Role
  content : String
  signal : String
  timestamp : Nat
deriving DecidableEq, Repr

/-- Kind of a signal file in `storage/`: `signal_{id}.txt` (start) or
`continue_{id}.txt` (continue / auto-advance). -/
inductive SignalKind where
  | startKind
  | continueKind
deriving DecidableEq, Repr

/-- A signal file: its kind and session id identify the file path, so a
second write to the same pair overwrites the file. -/
structure SignalFile where
  kind : SignalKind
  sessionId : String
  content : String
deriving DecidableEq, Repr

/-- The externally visible state: database rows plus the signal files
in `storage/`.  `messages` is kept in insertion (rowid) order and
`nextId` is the next rowid. -/
structure Store where
  sessions : List Session
  messages : List Message
  nextId : Nat
  signals : List SignalFile
deriving DecidableEq, Repr

/-- `SELECT ... FROM sessions WHERE id = ?`. -/
def findSession (st : Store) (sid : String) : Option Session :=
  st.sessions.find? (fun s => s.id == sid)

/-- Status of a session, if present. -/
def statusOf (st : Store) (sid : String) : Option String :=
  (findSession st sid).map (fun s => s.status)

/-- The rows of `messages` belonging to one session, in rowid order. -/
def messagesOf (st : Store) (sid : String) : List Message :=
  st.messages.filter (fun m => m.sessionId == sid)

/-- `INSERT INTO messages ...`: appends one row with the next rowid. -/
def appendMessage (st : Store) (sid : String) (role : Role)
    (content signal : String) (ts : Nat) : Store :=
  { st with
    messages := st.messages ++ [⟨st.nextId, sid, role, content, signal, ts⟩]
    nextId := st.nextId + 1 }

/-- `UPDATE sessions SET status = ? WHERE id = ?`. -/
def setStatus (st : Store) (sid status : String) : Store :=
  { st with
    sessions := st.sessions.map
      (fun s => if s.id == sid then { s with status := status } else s) }

/-- The signal files other than the one at `(kind, sessionId)`. -/
def dropSignal (st : Store) (k : SignalKind) (sid : String) : List SignalFile :=
  st.signals.filter (fun f => !(f.kind == k && f.sessionId == sid))

/-- `fs.writeFile` on a signal path: overwrites any file at the same
`(kind, sessionId)` path. -/
def writeSignal (st : Store) (k : SignalKind) (sid content : String) : Store :=
  { st with signals := dropSignal st k sid ++ [⟨k, sid, content⟩] }

/-- Read the signal file at `(kind, sessionId)`, if present. -/
def readSignal (st : Store) (k : SignalKind) (sid : String) : Option SignalFile :=
  st.signals.find? (fun f => f.kind == k && f.sessionId == sid)

/-- Atomically claim (read and delete) the signal file at
`(kind, sessionId)`; returns its content when one was present. -/
def consumeSignal (st : Store) (k : SignalKind) (sid : String) :
    Option String × Store :=
  match readSignal st k sid with
  | none => (none, st)
  | some f => (some f.content, { st with signals := dropSignal st k sid })

/-! ## SQL ordering

The routes order messages with `ORDER BY timestamp ASC` (fetch) and
`ORDER BY timestamp DESC LIMIT 1` (latest message); neither query names
a second sort key.  The embedding realises them as stable sorts on the
timestamp alone over rowid order, which is the tie order the storage
engine scan actually yields. -/

/-- Ascending timestamp comparison. -/
def tsLe (a b : Message) : Prop := a.timestamp ≤ b.timestamp

/-- Descending timestamp comparison. -/
def tsGe (a b : Message) : Prop := b.timestamp ≤ a.timestamp

instance : DecidableRel tsLe := fun a b => Nat.decLe a.timestamp b.timestamp

instance : DecidableRel tsGe := fun a b => Nat.decLe b.timestamp a.timestamp

/-- `SELECT * FROM messages WHERE session_id = ? ORDER BY timestamp ASC`
(route `GET /api/sessions/[id]/messages`). -/
def fetchMessages (st : Store) (sid : String) : List Message :=
  List.insertionSort tsLe (messagesOf st sid)

/-- `SELECT ... WHERE session_id = ? ORDER BY timestamp DESC LIMIT 1`:
the latest message of a session by timestamp alone. -/
def lastMessageOf (st : Store) (sid : String) : Option Message :=
  (List.insertionSort tsGe (messagesOf st sid)).head?

/-! ## Web mutation routes (embedded from the TypeScript sources) -/

/-- The JS guard `!text || text.trim().length === 0`: true exactly when
every character of the string is whitespace (including the empty
string). -/
def blankText (s : String) : Bool :=
  s.data.all (fun c => c == ' ' || c == '\t' || c == '\n' || c == '\r')

/-- Content of the stop-marker message inserted by
`POST /api/sessions/[id]/stop`. -/
def stopContent : String := "🛑 STOP - Please summarize everything we discussed."

/-- `POST /api/sessions/[id]/stop` (`web/app/api/sessions/[id]/stop/route.ts`):
unconditionally inserts one Human message with the stop-marker content and
signal `continue`, then writes the `continue_{sessionId}.txt` signal file
(whose content is the timestamp). -/
def requestStop (st : Store) (sid : String) (now : Nat) : Store :=
  let st1 := appendMessage st sid Role.Human stopContent "continue" now
  writeSignal st1 SignalKind.continueKind sid (toString now)

/-- `POST /api/sessions/[id]/trigger`: writes the continue signal file
with content `auto_trigger`. -/
def triggerRoute (st : Store) (sid : String) : Store :=
  writeSignal st SignalKind.continueKind sid "auto_trigger"

/-- `POST /api/sessions/[id]/continue` (the submit-human-message route):
rejects an empty message (400), an unknown session (404) and a session
with no messages (400) before any write; otherwise reactivates a
completed session, inserts one Human message with signal `continue` and
writes the continue signal file.  Returns the resulting store and the
HTTP error code when rejected. -/
def submitHumanMessage (st : Store) (sid text : String) (now : Nat) :
    Store × Option Nat :=
  if blankText text then (st, some 400)
  else
    match findSession st sid with
    | none => (st, some 404)
    | some s =>
        match lastMessageOf st sid with
        | none => (st, some 400)
        | some _ =>
            let st1 := if s.status == "completed"
              then setStatus st sid "active" else st
            let st2 := appendMessage st1 sid Role.Human text "continue" now
            (writeSignal st2 SignalKind.continueKind sid text, none)

/-- `POST /api/sessions/start`: rejects an empty topic (400); otherwise
creates an active session, inserts the initial Human message
the topic prefixed by a fixed phrase with signal `continue`, and writes the
`signal_{sessionId}.txt` start file with the topic as content. -/
def startSession (st : Store) (sid topic : String) (now : Nat) :
    Store × Option Nat :=
  if blankText topic then (st, some 400)
  else
    let st1 := { st with sessions := st.sessions ++ [⟨sid, topic, "active", now⟩] }
    let st2 := appendMessage st1 sid Role.Human
      ("Let\x27s discuss: " ++ topic) "continue" now
    (writeSignal st2 SignalKind.startKind sid topic, none)

/-! ## Backend coordinator (modelled) -/

/-- Context-window size: `DOCUMENTATION.md` — "Agents receive last
**10 messages** for normal responses". -/
def contextWindowSize : Nat := 10

/-- The last `n` elements of a list. -/
def lastWindow (n : Nat) (l : List Message) : List Message :=
  l.drop (l.length - n)

/-- The stop keyword agents detect, from `DOCUMENTATION.md`
("Stop Conversation: special human message with 🛑 STOP keyword"). -/
def stopKeyword : String := "🛑 STOP"

/-- Modelled from the spec: the backend stop detection (its Python
source is not under the web layer).  A message triggers the summary path
when it is a Human message whose content carries the stop keyword. -/
def isStopRequest (m : Message) : Bool :=
  m.role == Role.Human && containsTok stopKeyword.data m.content.data

/-- Modelled from the spec: the context handed to the invoked Responder —
the full ordered history on the stop-summary path, otherwise only the
most recent `contextWindowSize` messages (`DOCUMENTATION.md`,
"Context Window"). -/
def contextFor (hist : List Message) (m : Message) : List Message :=
  if isStopRequest m then hist else lastWindow contextWindowSize hist

/-- Modelled from the spec: a Responder-declared `stop` is coerced to
`handover` (§4.1: "the interpreter must tolerate and coerce it to
`handover` for safety"). -/
def coerceSignal (sig : String) : String :=
  if sig == "stop" then "handover" else sig

/-- Modelled from the spec: one `advance` step of the backend coordinator
(its Python source, `conversation_processor.py` / `core/coordinator.py`,
is not under the web layer).  It atomically claims the continue marker,
requires the session to exist and be `active`, re-reads the latest
message, routes with `get_next_role`, invokes the Responder on the
windowed (or, for a stop request, full) history and appends exactly one
message; on the stop path the appended summary completes the session.
`respond` abstracts the Responder: history ↦ (text, declared signal).
`advanceCore` is the dispatch that runs after the marker was claimed. -/
def advanceCore (st1 : Store) (sid : String)
    (respond : List Message → String × String) (now : Nat) : Store :=
  match findSession st1 sid with
  | none => st1
  | some s =>
      if s.status == "active" then
        match lastMessageOf st1 sid with
        | none => st1
        | some m =>
            if isStopRequest m then
              setStatus
                (appendMessage st1 sid (get_next_role m.role m.content)
                  (respond (contextFor (fetchMessages st1 sid) m)).1
                  "handover" now) sid "completed"
            else
              appendMessage st1 sid (get_next_role m.role m.content)
                (respond (contextFor (fetchMessages st1 sid) m)).1
                (coerceSignal (respond (contextFor (fetchMessages st1 sid) m)).2) now
      else st1

/-- Modelled from the spec: one poll cycle for a session — atomically
claim the continue marker, then dispatch. -/
def advance (st : Store) (sid : String)
    (respond : List Message → String × String) (now : Nat) : Store :=
  match consumeSignal st SignalKind.continueKind sid with
  | (none, _) => st
  | (some _, st1) => advanceCore st1 sid respond now

/-! ## Planning workflow (modelled) -/

/-- The named planning nodes (`ARCHITECTURE.md`, "Planning Node
Sequence"). -/
inductive PNode where
  | analyze_codebase
  | propose_changes
  | review_and_refine
  | validate_proposal
  | wait_for_human
  | finalize_plan
  | completed
deriving DecidableEq, Repr

/-- Persisted planning state (`planning_state`: current node plus the
accumulated artifacts and the revision counter). -/
structure PlanningState where
  sessionId : String
  currentNode : PNode
  analysis : String
  proposal : String
  review : String
  validationPassed : Bool
  revisionCount : Nat
  humanInput : String
  finalPlan : String
deriving DecidableEq, Repr

/-- Events driving the planning state machine: a system/Responder step
completing with its artifact text, or one of the human checkpoint
actions. -/
inductive PEvent where
  | system (text : String)
  | approve
  | modifyProposal (input : String)
  | modifyScope (input : String)
  | stopRequest
deriving DecidableEq, Repr

/-- Automatic validate→propose retries are capped at one attempt
(§4.2: "route back to `propose_changes` for one retry before
proceeding"). -/
def retryCap : Nat := 1

/-- Modelled from the spec: the planning-workflow transition function
(its Python source, `agents/planning_graph.py` / `planning_nodes.py`, is
not under the web layer).  Responder nodes auto-advance on completion;
`validate_proposal` is a system check over the review artifact
(`check`), routing back to `propose_changes` while retries remain and
otherwise emitting handover into the `wait_for_human` checkpoint; the
checkpoint only moves on an explicit human action; `finalize_plan`
completes.  `none` means the machine stays suspended at its current
node. -/
def pstep (check : String → Bool) (ps : PlanningState) (e : PEvent) :
    Option PlanningState :=
  match ps.currentNode, e with
  | PNode.analyze_codebase, PEvent.system t =>
      some { ps with analysis := t, currentNode := PNode.propose_changes }
  | PNode.propose_changes, PEvent.system t =>
      some { ps with proposal := t, currentNode := PNode.review_and_refine }
  | PNode.review_and_refine, PEvent.system t =>
      some { ps with review := t, currentNode := PNode.validate_proposal }
  | PNode.validate_proposal, PEvent.system _ =>
      if check ps.review then
        some { ps with validationPassed := true,
                       currentNode := PNode.wait_for_human }
      else if ps.revisionCount < retryCap then
        some { ps with currentNode := PNode.propose_changes,
                       revisionCount := ps.revisionCount + 1 }
      else
        some { ps with validationPassed := false,
                       currentNode := PNode.wait_for_human }
  | PNode.wait_for_human, PEvent.approve =>
      some { ps with currentNode := PNode.finalize_plan }
  | PNode.wait_for_human, PEvent.modifyProposal inp =>
      some { ps with currentNode := PNode.propose_changes,
                     humanInput := inp,
                     revisionCount := ps.revisionCount + 1 }
  | PNode.wait_for_human, PEvent.modifyScope inp =>
      some { ps with currentNode := PNode.analyze_codebase,
                     humanInput := inp,
                     revisionCount := ps.revisionCount + 1 }
  | PNode.wait_for_human, PEvent.stopRequest =>
      some { ps with currentNode := PNode.completed }
  | PNode.finalize_plan, PEvent.system t =>
      some { ps with finalPlan := t, currentNode := PNode.completed }
  | _, _ => none

/-! ## Concrete example data -/

/-- A sample stored Human message. -/
def exMsg : Message := ⟨0, "s1", Role.Human, "hello", "continue", 1⟩

/-- A store holding one active session with one message. -/
def activeStore : Store := ⟨[⟨"s1", "topic", "active", 0⟩], [exMsg], 1, []⟩

/-- A store holding one completed session with one message. -/
def completedStore : Store := ⟨[⟨"s1", "topic", "completed", 0⟩], [exMsg], 1, []⟩

/-- A sample Responder returning a fixed text and signal. -/
def demoResp : List Message → String × String :=
  fun _ => ("summary of the discussion", "continue")

/-- Two messages of one session sharing a timestamp (ids 1 and 2). -/
def tieMsg1 : Message := ⟨1, "s1", Role.AgentA, "first", "continue", 5⟩

/-- The later-inserted of the two tied messages. -/
def tieMsg2 : Message := ⟨2, "s1", Role.AgentB, "second", "continue", 5⟩

/-- A store whose two messages share a timestamp. -/
def tieStore : Store := ⟨[⟨"s1", "topic", "active", 0⟩], [tieMsg1, tieMsg2], 3, []⟩

/-- A validation check that always passes. -/
def demoCheck : String → Bool := fun _ => true

/-- A planning state parked at the human checkpoint. -/
def checkpointState : PlanningState :=
  ⟨"s1", PNode.wait_for_human, "analysis", "proposal", "review", true, 0, "", ""⟩

/-- The planning state after approval moves to `finalize_plan`. -/
def approvedState : PlanningState :=
  { checkpointState with currentNode := PNode.finalize_plan }

/-! ## Helper lemmas -/

instance : IsTotal Message tsLe := ⟨fun a b => Nat.le_total a.timestamp b.timestamp⟩

instance : IsTrans Message tsLe := ⟨fun _ _ _ hab hbc => Nat.le_trans hab hbc⟩

instance : IsTotal Message tsGe := ⟨fun a b => Nat.le_total b.timestamp a.timestamp⟩

instance : IsTrans Message tsGe := ⟨fun _ _ _ hab hbc => Nat.le_trans hbc hab⟩

theorem find?_filter_not {α : Type} (p : α → Bool) (l : List α) :
    List.find? p (l.filter (fun x => !(p x))) = none := by
  induction l with
  | nil => rfl
  | cons a l ih =>
      by_cases hpa : p a = true
      · simp [List.filter_cons, hpa, ih]
      · simp only [Bool.not_eq_true] at hpa
        simp [List.filter_cons, hpa, List.find?_cons, ih]

theorem find?_filter_not_append {α : Type} (p : α → Bool) (a : α) (l : List α)
    (ha : p a = true) :
    List.find? p (l.filter (fun x => !(p x)) ++ [a]) = some a := by
  rw [List.find?_append, find?_filter_not]
  simp [List.find?_cons, ha]

theorem readSignal_writeSignal (st : Store) (k : SignalKind) (sid c : String) :
    readSignal (writeSignal st k sid c) k sid = some ⟨k, sid, c⟩ := by
  unfold readSignal writeSignal dropSignal
  exact find?_filter_not_append _ _ _ (by simp)

theorem consumeSignal_of_readSignal {st : Store} {k : SignalKind} {sid : String}
    {f : SignalFile} (h : readSignal st k sid = some f) :
    consumeSignal st k sid =
      (some f.content, { st with signals := dropSignal st k sid }) := by
  unfold consumeSignal
  rw [h]

theorem consumeSignal_of_no_signal {st : Store} {k : SignalKind} {sid : String}
    (h : readSignal st k sid = none) :
    consumeSignal st k sid = (none, st) := by
  unfold consumeSignal
  rw [h]

theorem readSignal_consumeSignal (st : Store) (k : SignalKind) (sid : String) :
    readSignal (consumeSignal st k sid).2 k sid = none := by
  cases h : readSignal st k sid with
  | none => rw [consumeSignal_of_no_signal h]; exact h
  | some f =>
      rw [consumeSignal_of_readSignal h]
      unfold readSignal dropSignal
      exact find?_filter_not _ _

theorem messagesOf_appendMessage (st : Store) (sid : String) (role : Role)
    (content signal : String) (ts : Nat) :
    messagesOf (appendMessage st sid role content signal ts) sid =
      messagesOf st sid ++ [⟨st.nextId, sid, role, content, signal, ts⟩] := by
  unfold messagesOf appendMessage
  simp

theorem messagesOf_setStatus (st : Store) (sid status sid' : String) :
    messagesOf (setStatus st sid status) sid' = messagesOf st sid' := rfl

theorem messagesOf_writeSignal (st : Store) (k : SignalKind) (sid c sid' : String) :
    messagesOf (writeSignal st k sid c) sid' = messagesOf st sid' := rfl

theorem consumeSignal_messages (st : Store) (k : SignalKind) (sid : String) :
    (consumeSignal st k sid).2.messages = st.messages := by
  cases h : readSignal st k sid with
  | none => rw [consumeSignal_of_no_signal h]
  | some f => rw [consumeSignal_of_readSignal h]

theorem messagesOf_consumeSignal (st : Store) (k : SignalKind) (sid sid' : String) :
    messagesOf (consumeSignal st k sid).2 sid' = messagesOf st sid' := by
  unfold messagesOf
  rw [consumeSignal_messages]

theorem consumeSignal_sessions (st : Store) (k : SignalKind) (sid : String) :
    (consumeSignal st k sid).2.sessions = st.sessions := by
  cases h : readSignal st k sid with
  | none => rw [consumeSignal_of_no_signal h]
  | some f => rw [consumeSignal_of_readSignal h]

theorem consumeSignal_nextId (st : Store) (k : SignalKind) (sid : String) :
    (consumeSignal st k sid).2.nextId = st.nextId := by
  cases h : readSignal st k sid with
  | none => rw [consumeSignal_of_no_signal h]
  | some f => rw [consumeSignal_of_readSignal h]

theorem findSession_setStatus (st : Store) (sid status : String) :
    findSession (setStatus st sid status) sid =
      (findSession st sid).map (fun s => { s with status := status }) := by
  unfold findSession setStatus
  simp only
  rw [List.find?_map]
  have hcomp :
      ((fun s : Session => s.id == sid) ∘
        (fun s : Session => if s.id == sid then { s with status := status } else s)) =
      (fun s : Session => s.id == sid) := by
    funext s
    by_cases h : s.id = sid
    · simp [h]
    · simp [h]
  rw [hcomp]
  cases hfind : st.sessions.find? (fun s => s.id == sid) with
  | none => rfl
  | some s =>
      have hs := List.find?_some hfind
      have hs' : s.id = sid := by simpa using hs
      simp [hs']

theorem findSession_setStatus_ne (st : Store) (sid status sid' : String)
    (hne : sid' ≠ sid) :
    findSession (setStatus st sid status) sid' = findSession st sid' := by
  unfold findSession setStatus
  simp only
  rw [List.find?_map]
  have hcomp :
      ((fun s : Session => s.id == sid') ∘
        (fun s : Session => if s.id == sid then { s with status := status } else s)) =
      (fun s : Session => s.id == sid') := by
    funext s
    by_cases h : s.id = sid
    · simp [h]
    · simp [h]
  rw [hcomp]
  cases hfind : st.sessions.find? (fun s => s.id == sid') with
  | none => rfl
  | some s =>
      have hs := List.find?_some hfind
      have hs' : s.id = sid' := by simpa using hs
      have hnot : ¬ s.id = sid := by
        rw [hs']
        exact hne
      simp [hnot]

theorem insertionSort_tsGe_append_max (l : List Message) (x : Message)
    (h : ∀ m ∈ l, m.timestamp < x.timestamp) :
    List.insertionSort tsGe (l ++ [x]) = x :: List.insertionSort tsGe l := by
  induction l with
  | nil => simp [List.insertionSort]
  | cons a l ih =>
      have ha : a.timestamp < x.timestamp := h a (List.mem_cons_self a l)
      have hnot : ¬ tsGe a x := by
        unfold tsGe
        omega
      have hml : ∀ m ∈ l, m.timestamp < x.timestamp :=
        fun m hm => h m (List.mem_cons_of_mem a hm)
      show List.orderedInsert tsGe a (List.insertionSort tsGe (l ++ [x])) =
        x :: List.insertionSort tsGe (a :: l)
      rw [ih hml, List.orderedInsert, if_neg hnot]
      exact rfl

theorem lastMessageOf_append (st : Store) (sid : String) (role : Role)
    (content signal : String) (ts : Nat)
    (h : ∀ m ∈ messagesOf st sid, m.timestamp < ts) :
    lastMessageOf (appendMessage st sid role content signal ts) sid =
      some ⟨st.nextId, sid, role, content, signal, ts⟩ := by
  unfold lastMessageOf
  rw [messagesOf_appendMessage, insertionSort_tsGe_append_max _ _ h]
  rfl

theorem lastMessageOf_congr {st1 st2 : Store} {sid : String}
    (h : messagesOf st1 sid = messagesOf st2 sid) :
    lastMessageOf st1 sid = lastMessageOf st2 sid := by
  unfold lastMessageOf
  rw [h]

theorem findSession_appendMessage (st : Store) (sid : String) (role : Role)
    (content signal : String) (ts : Nat) (sid' : String) :
    findSession (appendMessage st sid role content signal ts) sid' =
      findSession st sid' := rfl

theorem findSession_writeSignal (st : Store) (k : SignalKind) (sid c sid' : String) :
    findSession (writeSignal st k sid c) sid' = findSession st sid' := rfl

theorem findSession_consumeSignal (st : Store) (k : SignalKind) (sid sid' : String) :
    findSession (consumeSignal st k sid).2 sid' = findSession st sid' := by
  unfold findSession
  rw [consumeSignal_sessions]

theorem statusOf_appendMessage (st : Store) (sid : String) (role : Role)
    (content signal : String) (ts : Nat) (sid' : String) :
    statusOf (appendMessage st sid role content signal ts) sid' =
      statusOf st sid' := rfl

theorem messagesOf_appendMessage_le (st : Store) (sid : String) (role : Role)
    (content signal : String) (ts : Nat) (sid' : String) :
    (messagesOf (appendMessage st sid role content signal ts) sid').length ≤
      (messagesOf st sid').length + 1 := by
  unfold messagesOf appendMessage
  simp only [List.filter_append, List.length_append]
  have : (List.filter (fun m => m.sessionId == sid')
      [(⟨st.nextId, sid, role, content, signal, ts⟩ : Message)]).length ≤ 1 := by
    by_cases h : ((⟨st.nextId, sid, role, content, signal, ts⟩ : Message).sessionId == sid') = true
    · simp [List.filter_cons, h]
    · simp [List.filter_cons, h]
  omega

theorem advanceCore_cases (st1 : Store) (sid : String)
    (respond : List Message → String × String) (now : Nat) :
    advanceCore st1 sid respond now = st1 ∨
    (∃ role text signal, advanceCore st1 sid respond now =
        appendMessage st1 sid role text signal now) ∨
    (∃ role text, advanceCore st1 sid respond now =
        setStatus (appendMessage st1 sid role text "handover" now)
          sid "completed") := by
  unfold advanceCore
  split
  · exact Or.inl rfl
  · split
    · split
      · exact Or.inl rfl
      · split
        · exact Or.inr (Or.inr ⟨_, _, rfl⟩)
        · exact Or.inr (Or.inl ⟨_, _, _, rfl⟩)
    · exact Or.inl rfl

theorem advanceCore_signals (st1 : Store) (sid : String)
    (respond : List Message → String × String) (now : Nat) :
    (advanceCore st1 sid respond now).signals = st1.signals := by
  rcases advanceCore_cases st1 sid respond now with h | ⟨r, t, sg, h⟩ | ⟨r, t, h⟩ <;>
    rw [h] <;> rfl

theorem advanceCore_messages_le (st1 : Store) (sid : String)
    (respond : List Message → String × String) (now : Nat) (sid' : String) :
    (messagesOf (advanceCore st1 sid respond now) sid').length ≤
      (messagesOf st1 sid').length + 1 := by
  rcases advanceCore_cases st1 sid respond now with h | ⟨r, t, sg, h⟩ | ⟨r, t, h⟩ <;>
    rw [h]
  · exact Nat.le_succ _
  · exact messagesOf_appendMessage_le _ _ _ _ _ _ _
  · rw [messagesOf_setStatus]
    exact messagesOf_appendMessage_le _ _ _ _ _ _ _

theorem advance_of_no_marker {st : Store} {sid : String}
    {respond : List Message → String × String} {now : Nat}
    (h : readSignal st SignalKind.continueKind sid = none) :
    advance st sid respond now = st := by
  unfold advance
  rw [consumeSignal_of_no_signal h]

theorem advance_marker_claimed (st : Store) (sid : String)
    (respond : List Message → String × String) (now : Nat) :
    readSignal (advance st sid respond now) SignalKind.continueKind sid = none := by
  cases h : readSignal st SignalKind.continueKind sid with
  | none => rw [advance_of_no_marker h]; exact h
  | some f =>
      unfold advance
      rw [consumeSignal_of_readSignal h]
      show readSignal
        (advanceCore { st with signals := dropSignal st SignalKind.continueKind sid }
          sid respond now) SignalKind.continueKind sid = none
      unfold readSignal
      rw [advanceCore_signals]
      show List.find? _ (dropSignal st SignalKind.continueKind sid) = none
      unfold dropSignal
      exact find?_filter_not _ _

theorem advanceCore_stop (st1 : Store) (sid : String)
    (respond : List Message → String × String) (now : Nat) (s : Session)
    (m : Message) (hfs : findSession st1 sid = some s)
    (hact : s.status = "active") (hlm : lastMessageOf st1 sid = some m)
    (hstop : isStopRequest m = true) :
    advanceCore st1 sid respond now =
      setStatus (appendMessage st1 sid (get_next_role m.role m.content)
        (respond (contextFor (fetchMessages st1 sid) m)).1 "handover" now)
        sid "completed" := by
  unfold advanceCore
  simp only [hfs, hact, hlm, hstop, beq_self_eq_true, if_true]

theorem advanceCore_not_active (st1 : Store) (sid : String)
    (respond : List Message → String × String) (now : Nat) (s : Session)
    (hfs : findSession st1 sid = some s)
    (hact : (s.status == "active") = false) :
    advanceCore st1 sid respond now = st1 := by
  unfold advanceCore
  simp only [hfs, hact, Bool.false_eq_true, if_false]

theorem advanceCore_completed (st1 : Store) (sid : String)
    (respond : List Message → String × String) (now : Nat)
    (hact : statusOf st1 sid = some "active")
    (hcomp : statusOf (advanceCore st1 sid respond now) sid = some "completed") :
    ∃ m, lastMessageOf st1 sid = some m ∧ isStopRequest m = true := by
  unfold advanceCore at hcomp
  split at hcomp
  · rw [hact] at hcomp
    exact absurd hcomp (by decide)
  · split at hcomp
    · split at hcomp
      · rw [hact] at hcomp
        exact absurd hcomp (by decide)
      · split at hcomp
        · rename_i m hlm hstop
          exact ⟨m, hlm, hstop⟩
        · rw [statusOf_appendMessage, hact] at hcomp
          exact absurd hcomp (by decide)
    · rw [hact] at hcomp
      exact absurd hcomp (by decide)

theorem advance_completed_of_active (st : Store) (sid : String)
    (respond : List Message → String × String) (now : Nat)
    (hact : statusOf st sid = some "active")
    (hcomp : statusOf (advance st sid respond now) sid = some "completed") :
    ∃ m, lastMessageOf st sid = some m ∧ isStopRequest m = true := by
  cases h : readSignal st SignalKind.continueKind sid with
  | none =>
      rw [advance_of_no_marker h, hact] at hcomp
      exact absurd hcomp (by decide)
  | some f =>
      unfold advance at hcomp
      rw [consumeSignal_of_readSignal h] at hcomp
      have hactC : statusOf
          { st with signals := dropSignal st SignalKind.continueKind sid } sid =
          some "active" := hact
      exact advanceCore_completed
        { st with signals := dropSignal st SignalKind.continueKind sid }
        sid respond now hactC hcomp

theorem advance_requestStop_facts (st : Store) (sid : String) (now t2 : Nat)
    (respond : List Message → String × String) (s : Session)
    (hfs : findSession st sid = some s) (hact : s.status = "active")
    (hts : ∀ m ∈ messagesOf st sid, m.timestamp < now) :
    messagesOf (advance (requestStop st sid now) sid respond t2) sid =
      (messagesOf st sid ++
          [⟨st.nextId, sid, Role.Human, stopContent, "continue", now⟩]) ++
        [⟨st.nextId + 1, sid, get_next_role Role.Human stopContent,
          (respond (fetchMessages (requestStop st sid now) sid)).1,
          "handover", t2⟩] ∧
    statusOf (advance (requestStop st sid now) sid respond t2) sid =
      some "completed" := by
  have hreadR : readSignal (requestStop st sid now) SignalKind.continueKind sid =
      some ⟨SignalKind.continueKind, sid, toString now⟩ :=
    readSignal_writeSignal (appendMessage st sid Role.Human stopContent "continue" now)
      SignalKind.continueKind sid (toString now)
  have hadv : advance (requestStop st sid now) sid respond t2 =
      advanceCore
        { requestStop st sid now with
          signals := dropSignal (requestStop st sid now) SignalKind.continueKind sid }
        sid respond t2 := by
    unfold advance
    rw [consumeSignal_of_readSignal hreadR]
  set C := { requestStop st sid now with
    signals := dropSignal (requestStop st sid now) SignalKind.continueKind sid }
    with hCdef
  have hfsC : findSession C sid = some s := hfs
  have hlmC : lastMessageOf C sid =
      some ⟨st.nextId, sid, Role.Human, stopContent, "continue", now⟩ :=
    lastMessageOf_append st sid Role.Human stopContent "continue" now hts
  have hstopM : isStopRequest
      (⟨st.nextId, sid, Role.Human, stopContent, "continue", now⟩ : Message) = true := rfl
  have hmsgsC : messagesOf C sid =
      messagesOf st sid ++ [⟨st.nextId, sid, Role.Human, stopContent, "continue", now⟩] :=
    messagesOf_appendMessage st sid Role.Human stopContent "continue" now
  rw [hadv, advanceCore_stop C sid respond t2 s _ hfsC hact hlmC hstopM]
  constructor
  · rw [messagesOf_setStatus, messagesOf_appendMessage, hmsgsC]
    have hctx : contextFor (fetchMessages C sid)
        (⟨st.nextId, sid, Role.Human, stopContent, "continue", now⟩ : Message) =
        fetchMessages C sid := by
      unfold contextFor
      rw [hstopM]
      simp
    rw [hctx]
    rfl
  · unfold statusOf
    rw [findSession_setStatus, findSession_appendMessage, hfsC]
    rfl

theorem advance_messages_le (st : Store) (sid : String)
    (respond : List Message → String × String) (now : Nat) (sid' : String) :
    (messagesOf (advance st sid respond now) sid').length ≤
      (messagesOf st sid').length + 1 := by
  cases h : readSignal st SignalKind.continueKind sid with
  | none => rw [advance_of_no_marker h]; omega
  | some f =>
      unfold advance
      rw [consumeSignal_of_readSignal h]
      show (messagesOf (advanceCore _ sid respond now) sid').length ≤ _
      calc (messagesOf (advanceCore { st with signals := dropSignal st SignalKind.continueKind sid } sid respond now) sid').length
          ≤ (messagesOf { st with signals := dropSignal st SignalKind.continueKind sid } sid').length + 1 :=
            advanceCore_messages_le _ _ _ _ _
        _ = (messagesOf st sid').length + 1 := rfl

theorem submitHumanMessage_accepted (st : Store) (sid text : String) (now : Nat)
    (hacc : (submitHumanMessage st sid text now).2 = none) :
    messagesOf (submitHumanMessage st sid text now).1 sid =
      messagesOf st sid ++ [⟨st.nextId, sid, Role.Human, text, "continue", now⟩] ∧
    readSignal (submitHumanMessage st sid text now).1 SignalKind.continueKind sid =
      some ⟨SignalKind.continueKind, sid, text⟩ := by
  by_cases hb : blankText text = true
  · unfold submitHumanMessage at hacc
    simp [hb] at hacc
  · cases hfs : findSession st sid with
    | none =>
        unfold submitHumanMessage at hacc
        simp [hb, hfs] at hacc
    | some s1 =>
        cases hlm : lastMessageOf st sid with
        | none =>
            unfold submitHumanMessage at hacc
            simp [hb, hfs, hlm] at hacc
        | some m1 =>
            have hval : submitHumanMessage st sid text now =
                (writeSignal
                  (appendMessage
                    (if (s1.status == "completed") = true
                      then setStatus st sid "active" else st)
                    sid Role.Human text "continue" now)
                  SignalKind.continueKind sid text, none) := by
              unfold submitHumanMessage
              simp only [hb, Bool.false_eq_true, if_false, hfs, hlm]
            rw [hval]
            constructor
            · by_cases hcompl : (s1.status == "completed") = true
              · simp only [hcompl, if_true]
                rw [messagesOf_writeSignal, messagesOf_appendMessage,
                  messagesOf_setStatus]
                rfl
              · simp only [hcompl, Bool.false_eq_true, if_false]
                rw [messagesOf_writeSignal, messagesOf_appendMessage]
            · exact readSignal_writeSignal _ _ _ _

/-! ## Claim theorems -/

/-- C1 (counterexample): a human message mentioning both agents, such as
`@a @b`, is routed to Agent B, not to Agent A — the claimed Agent A
precedence on a double mention fails on the code (the Agent B test runs
first in `get_next_role`). -/
theorem c1_counterexample :
    mentionsAgentA "@a @b" = true ∧ mentionsAgentB "@a @b" = true ∧
    get_next_role Role.Human "@a @b" = Role.AgentB ∧
    get_next_role Role.Human "@a @b" ≠ Role.AgentA := by
  refine ⟨by decide, by decide, by decide, by decide⟩

/-- C1 (amended): for every non-empty history, when the last message is
Human the turn goes to the mentioned agent (case-insensitive fixed token
sets in two languages), defaulting to Agent A when no mention is found,
with Agent B — not Agent A — winning when a mention matches both agents;
when the last message is an agent message the other agent takes the
turn. -/
theorem c1_next_role_routing (hist : List Message) (m : Message)
    (hlast : hist.getLast? = some m) :
    (m.role = Role.Human → mentionsAgentB m.content = true →
      get_next_role m.role m.content = Role.AgentB) ∧
    (m.role = Role.Human → mentionsAgentB m.content = false →
      mentionsAgentA m.content = true →
      get_next_role m.role m.content = Role.AgentA) ∧
    (m.role = Role.Human → mentionsAgentA m.content = false →
      mentionsAgentB m.content = false →
      get_next_role m.role m.content = Role.AgentA) ∧
    (m.role = Role.AgentA → get_next_role m.role m.content = Role.AgentB) ∧
    (m.role = Role.AgentB → get_next_role m.role m.content = Role.AgentA) := by
  refine ⟨?_, ?_, ?_, ?_, ?_⟩
  · intro hrole hb
    rw [hrole]
    unfold get_next_role
    simp [hb]
  · intro hrole hb ha
    rw [hrole]
    unfold get_next_role
    simp [hb, ha]
  · intro hrole ha hb
    rw [hrole]
    unfold get_next_role
    simp [hb, ha]
  · intro hrole
    rw [hrole]
    rfl
  · intro hrole
    rw [hrole]
    rfl

/-- C1 witness: the routing theorem applied to a one-message history
addressed to Agent B. -/
theorem c1_next_role_routing_witness :
    get_next_role Role.Human "@b please" = Role.AgentB :=
  (c1_next_role_routing [⟨0, "s1", Role.Human, "@b please", "continue", 0⟩]
    ⟨0, "s1", Role.Human, "@b please", "continue", 0⟩ rfl).1 rfl (by decide)

/-- C2: the Responder context is the full ordered history exactly on the
stop-summary path, and otherwise the bounded window of the most recent
`contextWindowSize = 10` messages (a suffix of the history of length at
most 10). -/
theorem c2_context_window (hist : List Message) (m : Message) :
    (isStopRequest m = true → contextFor hist m = hist) ∧
    (isStopRequest m = false →
      contextFor hist m = lastWindow contextWindowSize hist ∧
      (contextFor hist m).length ≤ contextWindowSize ∧
      hist.take (hist.length - contextWindowSize) ++ contextFor hist m = hist) := by
  constructor
  · intro h
    unfold contextFor
    simp [h]
  · intro h
    unfold contextFor
    rw [h]
    simp only [Bool.false_eq_true, if_false]
    refine ⟨trivial, ?_, ?_⟩
    · unfold lastWindow contextWindowSize
      rw [List.length_drop]
      omega
    · unfold lastWindow
      exact List.take_append_drop _ _

/-- C2 witness: the window theorem applied to a 12-message history and a
non-stop message — the context is the 10-message suffix. -/
theorem c2_context_window_witness :
    isStopRequest exMsg = false ∧
    contextFor (List.replicate 12 exMsg) exMsg =
      lastWindow contextWindowSize (List.replicate 12 exMsg) ∧
    (contextFor (List.replicate 12 exMsg) exMsg).length ≤ contextWindowSize :=
  ⟨by decide,
   ((c2_context_window (List.replicate 12 exMsg) exMsg).2 (by decide)).1,
   ((c2_context_window (List.replicate 12 exMsg) exMsg).2 (by decide)).2.1⟩

/-- C3 (counterexample): submitting a human message to a completed
session is accepted and flips the session status back to `active`
(`stop/route.ts` lines 163-170), refuting the claim that no public
mutation moves a completed session away from `completed`. -/
theorem c3_counterexample :
    statusOf completedStore "s1" = some "completed" ∧
    (submitHumanMessage completedStore "s1" "and one more thing" 2).2 = none ∧
    statusOf (submitHumanMessage completedStore "s1" "and one more thing" 2).1 "s1" =
      some "active" := by
  refine ⟨by decide, by decide, by decide⟩

/-- C3 (amended): the stop, trigger and start operations never change
the status of an existing session; submit-human-message changes a status
only on acceptance and only by reactivating the completed target session
to `active` — an accepted submit leaves an active target session active
and never touches the status of any other session; and the modelled
backend completes an active session only when the latest message is a
Human stop request. -/
theorem c3_status_transitions (st : Store) (sid sid' sid2 text topic : String)
    (now : Nat) (respond : List Message → String × String) (s : Session) :
    (statusOf (requestStop st sid now) sid' = statusOf st sid') ∧
    (statusOf (triggerRoute st sid) sid' = statusOf st sid') ∧
    (findSession st sid' = some s →
      statusOf (startSession st sid2 topic now).1 sid' = some s.status) ∧
    ((submitHumanMessage st sid text now).2.isSome = true →
      (submitHumanMessage st sid text now).1 = st) ∧
    ((submitHumanMessage st sid text now).2 = none →
      statusOf st sid = some "completed" →
      statusOf (submitHumanMessage st sid text now).1 sid = some "active") ∧
    ((submitHumanMessage st sid text now).2 = none →
      statusOf st sid = some "active" →
      statusOf (submitHumanMessage st sid text now).1 sid = some "active") ∧
    ((submitHumanMessage st sid text now).2 = none → sid' ≠ sid →
      statusOf (submitHumanMessage st sid text now).1 sid' = statusOf st sid') ∧
    (statusOf st sid = some "active" →
      statusOf (advance st sid respond now) sid = some "completed" →
      ∃ m, lastMessageOf st sid = some m ∧ isStopRequest m = true) := by
  refine ⟨rfl, rfl, ?_, ?_, ?_, ?_, ?_, ?_⟩
  · intro hfs
    unfold startSession
    by_cases hb : blankText topic = true
    · simp only [hb, if_true]
      unfold statusOf
      rw [hfs]
      rfl
    · simp only [hb, Bool.false_eq_true, if_false]
      show statusOf
        { st with sessions := st.sessions ++ [⟨sid2, topic, "active", now⟩] }
        sid' = some s.status
      unfold statusOf findSession
      unfold findSession at hfs
      show ((st.sessions ++ ([⟨sid2, topic, "active", now⟩] : List Session)).find?
        (fun x : Session => x.id == sid')).map
          (fun x : Session => x.status) = some s.status
      rw [List.find?_append, hfs]
      rfl
  · unfold submitHumanMessage
    split
    · intro _
      rfl
    · split
      · intro _
        rfl
      · split
        · intro _
          rfl
        · intro h
          simp at h
  · intro hacc hcompl
    by_cases hb : blankText text = true
    · unfold submitHumanMessage at hacc
      simp [hb] at hacc
    · cases hfs : findSession st sid with
      | none =>
          unfold submitHumanMessage at hacc
          simp [hb, hfs] at hacc
      | some s1 =>
          cases hlm : lastMessageOf st sid with
          | none =>
              unfold submitHumanMessage at hacc
              simp [hb, hfs, hlm] at hacc
          | some m1 =>
              have hval : submitHumanMessage st sid text now =
                  (writeSignal
                    (appendMessage
                      (if (s1.status == "completed") = true
                        then setStatus st sid "active" else st)
                      sid Role.Human text "continue" now)
                    SignalKind.continueKind sid text, none) := by
                unfold submitHumanMessage
                simp only [hb, Bool.false_eq_true, if_false, hfs, hlm]
              have hs1 : s1.status = "completed" := by
                unfold statusOf at hcompl
                rw [hfs] at hcompl
                simpa using hcompl
              rw [hval]
              simp only [hs1, beq_self_eq_true, if_true]
              show statusOf (setStatus st sid "active") sid = some "active"
              unfold statusOf
              rw [findSession_setStatus, hfs]
              rfl
  · intro hacc hactive
    by_cases hb : blankText text = true
    · unfold submitHumanMessage at hacc
      simp [hb] at hacc
    · cases hfs : findSession st sid with
      | none =>
          unfold submitHumanMessage at hacc
          simp [hb, hfs] at hacc
      | some s1 =>
          cases hlm : lastMessageOf st sid with
          | none =>
              unfold submitHumanMessage at hacc
              simp [hb, hfs, hlm] at hacc
          | some m1 =>
              have hval : submitHumanMessage st sid text now =
                  (writeSignal
                    (appendMessage
                      (if (s1.status == "completed") = true
                        then setStatus st sid "active" else st)
                      sid Role.Human text "continue" now)
                    SignalKind.continueKind sid text, none) := by
                unfold submitHumanMessage
                simp only [hb, Bool.false_eq_true, if_false, hfs, hlm]
              have hs1 : s1.status = "active" := by
                unfold statusOf at hactive
                rw [hfs] at hactive
                simpa using hactive
              have hnc : (s1.status == "completed") = false := by
                rw [hs1]
                rfl
              rw [hval]
              simp only [hnc, Bool.false_eq_true, if_false]
              exact hactive
  · intro hacc hne
    by_cases hb : blankText text = true
    · unfold submitHumanMessage at hacc
      simp [hb] at hacc
    · cases hfs : findSession st sid with
      | none =>
          unfold submitHumanMessage at hacc
          simp [hb, hfs] at hacc
      | some s1 =>
          cases hlm : lastMessageOf st sid with
          | none =>
              unfold submitHumanMessage at hacc
              simp [hb, hfs, hlm] at hacc
          | some m1 =>
              have hval : submitHumanMessage st sid text now =
                  (writeSignal
                    (appendMessage
                      (if (s1.status == "completed") = true
                        then setStatus st sid "active" else st)
                      sid Role.Human text "continue" now)
                    SignalKind.continueKind sid text, none) := by
                unfold submitHumanMessage
                simp only [hb, Bool.false_eq_true, if_false, hfs, hlm]
              rw [hval]
              by_cases hcompl : (s1.status == "completed") = true
              · simp only [hcompl, if_true]
                show statusOf (setStatus st sid "active") sid' = statusOf st sid'
                unfold statusOf
                rw [findSession_setStatus_ne st sid "active" sid' hne]
              · simp only [hcompl, Bool.false_eq_true, if_false]
                rfl
  · exact advance_completed_of_active st sid respond now

/-- C3 witness: the amended theorem applied to the completed-session
store (the accepted human message reactivates it) and to the active
store (the accepted human message leaves it active). -/
theorem c3_status_transitions_witness :
    statusOf (submitHumanMessage completedStore "s1" "and one more thing" 2).1 "s1" =
      some "active" ∧
    statusOf (submitHumanMessage activeStore "s1" "and one more thing" 2).1 "s1" =
      some "active" :=
  ⟨(c3_status_transitions completedStore "s1" "s1" "s2" "and one more thing" "t" 2
      demoResp ⟨"s1", "topic", "completed", 0⟩).2.2.2.2.1 (by decide) (by decide),
   (c3_status_transitions activeStore "s1" "s1" "s2" "and one more thing" "t" 2
      demoResp ⟨"s1", "topic", "active", 0⟩).2.2.2.2.2.1 (by decide) (by decide)⟩

/-- C4: in the planning state machine, `finalize_plan` is reachable in
one step only from the `wait_for_human` checkpoint under the human
`approve` action — in particular never directly from
`validate_proposal` — and the checkpoint never advances on a
system/Responder event, so the workflow stays suspended there until a
human action arrives. -/
theorem c4_checkpoint_gate (check : String → Bool) (ps ps' : PlanningState)
    (e : PEvent) (t : String) :
    (pstep check ps e = some ps' → ps'.currentNode = PNode.finalize_plan →
      ps.currentNode = PNode.wait_for_human ∧ e = PEvent.approve) ∧
    (ps.currentNode = PNode.wait_for_human →
      pstep check ps (PEvent.system t) = none) := by
  constructor
  · intro hstep hfin
    unfold pstep at hstep
    split at hstep
    all_goals try exact Option.noConfusion hstep
    all_goals try { injection hstep with h; subst h; simp at hfin; done }
    · split_ifs at hstep <;> (injection hstep with h; subst h; simp at hfin)
    · injection hstep with h
      subst h
      exact ⟨by assumption, rfl⟩
  · intro hw
    unfold pstep
    simp only [hw]

/-- C4 witness: the gate theorem applied at the checkpoint with an
approval event, and the suspension clause at the checkpoint. -/
theorem c4_checkpoint_gate_witness :
    (checkpointState.currentNode = PNode.wait_for_human ∧
      PEvent.approve = PEvent.approve) ∧
    pstep demoCheck checkpointState (PEvent.system "artifact") = none :=
  ⟨(c4_checkpoint_gate demoCheck checkpointState approvedState
      PEvent.approve "artifact").1 (by decide) (by decide),
   (c4_checkpoint_gate demoCheck checkpointState approvedState
      PEvent.approve "artifact").2 (by decide)⟩

/-- C5: overlapping markers and concurrent pollers cannot double-process
a trigger — writing the continue marker twice leaves a single claimable
marker (a second atomic claim returns nothing), a second poll after a
claiming poll is a no-op on the store, and the two poll cycles together
append at most one message for the session. -/
theorem c5_trigger_single_claim (st : Store) (sid : String)
    (respond : List Message → String × String) (t1 t2 : Nat) (w1 w2 : String) :
    (consumeSignal
        (consumeSignal
          (writeSignal (writeSignal st SignalKind.continueKind sid w1)
            SignalKind.continueKind sid w2)
          SignalKind.continueKind sid).2
        SignalKind.continueKind sid).1 = none ∧
    advance (advance (writeSignal (writeSignal st SignalKind.continueKind sid w1)
        SignalKind.continueKind sid w2) sid respond t1) sid respond t2 =
      advance (writeSignal (writeSignal st SignalKind.continueKind sid w1)
        SignalKind.continueKind sid w2) sid respond t1 ∧
    (messagesOf (advance (writeSignal (writeSignal st SignalKind.continueKind sid w1)
        SignalKind.continueKind sid w2) sid respond t1) sid).length ≤
      (messagesOf st sid).length + 1 := by
  refine ⟨?_, ?_, ?_⟩
  · rw [consumeSignal_of_no_signal (readSignal_consumeSignal _ _ _)]
  · exact advance_of_no_marker (advance_marker_claimed _ _ _ _)
  · exact advance_messages_le
      (writeSignal (writeSignal st SignalKind.continueKind sid w1)
        SignalKind.continueKind sid w2) sid respond t1 sid

/-- C6: the stop route appends exactly one Human message carrying the
stop marker and arms the continue trigger; the armed advance detects the
stop request, hands the Responder the full fetched history (not the
bounded window) and completes the session; and at the detection level
only a Human message carrying the stop keyword triggers the summary
path. -/
theorem c6_request_stop (st : Store) (sid : String) (now t2 : Nat)
    (respond : List Message → String × String) (s : Session)
    (hfs : findSession st sid = some s) (hact : s.status = "active")
    (hts : ∀ m ∈ messagesOf st sid, m.timestamp < now) :
    (requestStop st sid now).messages =
      st.messages ++ [⟨st.nextId, sid, Role.Human, stopContent, "continue", now⟩] ∧
    isStopRequest
      (⟨st.nextId, sid, Role.Human, stopContent, "continue", now⟩ : Message) = true ∧
    readSignal (requestStop st sid now) SignalKind.continueKind sid =
      some ⟨SignalKind.continueKind, sid, toString now⟩ ∧
    messagesOf (advance (requestStop st sid now) sid respond t2) sid =
      (messagesOf st sid ++
          [⟨st.nextId, sid, Role.Human, stopContent, "continue", now⟩]) ++
        [⟨st.nextId + 1, sid, get_next_role Role.Human stopContent,
          (respond (fetchMessages (requestStop st sid now) sid)).1,
          "handover", t2⟩] ∧
    statusOf (advance (requestStop st sid now) sid respond t2) sid =
      some "completed" ∧
    (∀ m : Message, isStopRequest m = true →
      m.role = Role.Human ∧ containsTok stopKeyword.data m.content.data = true) := by
  refine ⟨rfl, rfl,
    readSignal_writeSignal (appendMessage st sid Role.Human stopContent "continue" now)
      SignalKind.continueKind sid (toString now),
    (advance_requestStop_facts st sid now t2 respond s hfs hact hts).1,
    (advance_requestStop_facts st sid now t2 respond s hfs hact hts).2, ?_⟩
  intro m hm
  unfold isStopRequest at hm
  rw [Bool.and_eq_true] at hm
  constructor
  · simpa using hm.1
  · exact hm.2

/-- C6 witness: the stop theorem applied to the one-message active
store. -/
theorem c6_request_stop_witness :
    (requestStop activeStore "s1" 5).messages =
      activeStore.messages ++
        [⟨activeStore.nextId, "s1", Role.Human, stopContent, "continue", 5⟩] ∧
    statusOf (advance (requestStop activeStore "s1" 5) "s1" demoResp 6) "s1" =
      some "completed" :=
  ⟨(c6_request_stop activeStore "s1" 5 6 demoResp ⟨"s1", "topic", "active", 0⟩
      (by decide) rfl (by decide)).1,
   (c6_request_stop activeStore "s1" 5 6 demoResp ⟨"s1", "topic", "active", 0⟩
      (by decide) rfl (by decide)).2.2.2.2.1⟩

/-- C7: after a stop request and its summarising advance (which appends
one summary message and completes the session), a second stop request
appends only its stop marker and the following advance appends nothing —
a second summary is never produced because the session is no longer
active. -/
theorem c7_stop_idempotent (st : Store) (sid : String)
    (respond : List Message → String × String) (t1 t2 t3 t4 : Nat) (s : Session)
    (hfs : findSession st sid = some s) (hact : s.status = "active")
    (hts : ∀ m ∈ messagesOf st sid, m.timestamp < t1) :
    messagesOf (advance (requestStop st sid t1) sid respond t2) sid =
      messagesOf (requestStop st sid t1) sid ++
        [⟨st.nextId + 1, sid, get_next_role Role.Human stopContent,
          (respond (fetchMessages (requestStop st sid t1) sid)).1,
          "handover", t2⟩] ∧
    statusOf (advance (requestStop st sid t1) sid respond t2) sid =
      some "completed" ∧
    messagesOf
        (advance
          (requestStop (advance (requestStop st sid t1) sid respond t2) sid t3)
          sid respond t4) sid =
      messagesOf
        (requestStop (advance (requestStop st sid t1) sid respond t2) sid t3)
        sid := by
  have hfacts := advance_requestStop_facts st sid t1 t2 respond s hfs hact hts
  have hmsgsR : messagesOf (requestStop st sid t1) sid =
      messagesOf st sid ++ [⟨st.nextId, sid, Role.Human, stopContent, "continue", t1⟩] :=
    messagesOf_appendMessage st sid Role.Human stopContent "continue" t1
  refine ⟨?_, hfacts.2, ?_⟩
  · rw [hmsgsR]
    exact hfacts.1
  · set st2 := advance (requestStop st sid t1) sid respond t2 with hst2
    obtain ⟨s2, hfs2, hstat2⟩ : ∃ s2, findSession st2 sid = some s2 ∧
        s2.status = "completed" := by
      have h2 := hfacts.2
      unfold statusOf at h2
      cases hf : findSession st2 sid with
      | none => rw [hf] at h2; exact absurd h2 (by simp)
      | some s2 =>
          rw [hf] at h2
          exact ⟨s2, rfl, by simpa using h2⟩
    have hread3 : readSignal (requestStop st2 sid t3) SignalKind.continueKind sid =
        some ⟨SignalKind.continueKind, sid, toString t3⟩ :=
      readSignal_writeSignal (appendMessage st2 sid Role.Human stopContent "continue" t3)
        SignalKind.continueKind sid (toString t3)
    have hadv3 : advance (requestStop st2 sid t3) sid respond t4 =
        advanceCore
          { requestStop st2 sid t3 with
            signals := dropSignal (requestStop st2 sid t3) SignalKind.continueKind sid }
          sid respond t4 := by
      unfold advance
      rw [consumeSignal_of_readSignal hread3]
    have hfsC3 : findSession
        { requestStop st2 sid t3 with
          signals := dropSignal (requestStop st2 sid t3) SignalKind.continueKind sid }
        sid = some s2 := hfs2
    have hnact : (s2.status == "active") = false := by
      rw [hstat2]
      rfl
    rw [hadv3, advanceCore_not_active _ sid respond t4 s2 hfsC3 hnact]
    rfl

/-- C7 witness: the idempotence theorem applied to the one-message
active store with stops at times 5 and 7 and advances at times 6
and 8. -/
theorem c7_stop_idempotent_witness :
    statusOf (advance (requestStop activeStore "s1" 5) "s1" demoResp 6) "s1" =
      some "completed" ∧
    messagesOf
        (advance
          (requestStop (advance (requestStop activeStore "s1" 5) "s1" demoResp 6)
            "s1" 7) "s1" demoResp 8) "s1" =
      messagesOf
        (requestStop (advance (requestStop activeStore "s1" 5) "s1" demoResp 6)
          "s1" 7) "s1" :=
  ⟨(c7_stop_idempotent activeStore "s1" demoResp 5 6 7 8 ⟨"s1", "topic", "active", 0⟩
      (by decide) rfl (by decide)).2.1,
   (c7_stop_idempotent activeStore "s1" demoResp 5 6 7 8 ⟨"s1", "topic", "active", 0⟩
      (by decide) rfl (by decide)).2.2⟩

/-- C8: submit-human-message rejects a blank message (400) and an
unknown session (404); every rejection leaves the store unchanged; on
acceptance exactly one Human message (signal `continue`) is appended for
the session and the continue trigger is armed. -/
theorem c8_submit_validation (st : Store) (sid text : String) (now : Nat) :
    (blankText text = true →
      submitHumanMessage st sid text now = (st, some 400)) ∧
    (blankText text = false → findSession st sid = none →
      submitHumanMessage st sid text now = (st, some 404)) ∧
    ((submitHumanMessage st sid text now).2.isSome = true →
      (submitHumanMessage st sid text now).1 = st) ∧
    ((submitHumanMessage st sid text now).2 = none →
      messagesOf (submitHumanMessage st sid text now).1 sid =
        messagesOf st sid ++ [⟨st.nextId, sid, Role.Human, text, "continue", now⟩] ∧
      readSignal (submitHumanMessage st sid text now).1 SignalKind.continueKind sid =
        some ⟨SignalKind.continueKind, sid, text⟩) := by
  refine ⟨?_, ?_, ?_, ?_⟩
  · intro hb
    unfold submitHumanMessage
    simp [hb]
  · intro hb hn
    unfold submitHumanMessage
    simp [hb, hn]
  · unfold submitHumanMessage
    split
    · intro _
      rfl
    · split
      · intro _
        rfl
      · split
        · intro _
          rfl
        · intro h
          simp at h
  · exact submitHumanMessage_accepted st sid text now

/-- C8 witness: the validation theorem applied to a blank message
(rejected, store unchanged) and to an accepted message (exactly one
Human `continue` message appended). -/
theorem c8_submit_validation_witness :
    submitHumanMessage activeStore "s1" " " 2 = (activeStore, some 400) ∧
    messagesOf (submitHumanMessage activeStore "s1" "what about caching" 2).1 "s1" =
      messagesOf activeStore "s1" ++
        [⟨activeStore.nextId, "s1", Role.Human, "what about caching", "continue", 2⟩] :=
  ⟨(c8_submit_validation activeStore "s1" " " 2).1 (by decide),
   ((c8_submit_validation activeStore "s1" "what about caching" 2).2.2.2
      (by decide)).1⟩

/-- C9 (counterexample): two messages of one session share a timestamp;
the latest-message query (timestamp order only, head of the stable
descending sort) returns the row with the smaller identifier, while the
claimed identifier tie-break would select the larger one. -/
theorem c9_counterexample :
    tieMsg1.timestamp = tieMsg2.timestamp ∧
    tieMsg1.id < tieMsg2.id ∧
    tieMsg2 ∈ messagesOf tieStore "s1" ∧
    lastMessageOf tieStore "s1" = some tieMsg1 ∧
    lastMessageOf tieStore "s1" ≠ some tieMsg2 := by
  refine ⟨by decide, by decide, by decide, by decide, by decide⟩

/-- C9 (amended): the fetch query returns a permutation of the stored
messages sorted by timestamp (ties resolved by insertion order, with no
identifier tie-break), and the latest-message query returns a message of
maximal timestamp — on ties it is the earliest-inserted such message,
not the one with the larger identifier. -/
theorem c9_order (st : Store) (sid : String) :
    List.Sorted tsLe (fetchMessages st sid) ∧
    List.Perm (fetchMessages st sid) (messagesOf st sid) ∧
    (∀ m ∈ messagesOf st sid, ∀ x, lastMessageOf st sid = some x →
      m.timestamp ≤ x.timestamp) := by
  refine ⟨List.sorted_insertionSort tsLe _, List.perm_insertionSort tsLe _, ?_⟩
  intro m hm x hx
  have hsorted : List.Sorted tsGe (List.insertionSort tsGe (messagesOf st sid)) :=
    List.sorted_insertionSort tsGe _
  have hmem : m ∈ List.insertionSort tsGe (messagesOf st sid) :=
    (List.mem_insertionSort tsGe).2 hm
  unfold lastMessageOf at hx
  cases hsort : List.insertionSort tsGe (messagesOf st sid) with
  | nil =>
      rw [hsort] at hx
      exact absurd hx (by simp)
  | cons y ys =>
      rw [hsort] at hx hmem hsorted
      have hxy : y = x := by simpa using hx
      subst hxy
      rcases List.mem_cons.1 hmem with hmy | hmys
      · subst hmy
        exact Nat.le_refl _
      · exact List.rel_of_sorted_cons hsorted m hmys

/-- C9 witness: the ordering theorem applied to the tied store — every
stored message has timestamp at most that of the returned latest
message. -/
theorem c9_order_witness :
    tieMsg2 ∈ messagesOf tieStore "s1" ∧
    lastMessageOf tieStore "s1" = some tieMsg1 ∧
    tieMsg2.timestamp ≤ tieMsg1.timestamp :=
  ⟨by decide, by decide,
   (c9_order tieStore "s1").2.2 tieMsg2 (by decide) tieMsg1 (by decide)⟩

/-- C10: every Human message written by the public mutation surface
carries signal `continue` — the stop route appends the stop-marker Human
message with signal `continue` (its content, not its signal, carries the
stop keyword), the accepted submit route appends a Human `continue`
message, and the start route appends the initial Human `continue`
message. -/
theorem c10_mutation_signals (st : Store) (sid text topic : String) (now : Nat) :
    (requestStop st sid now).messages =
      st.messages ++ [⟨st.nextId, sid, Role.Human, stopContent, "continue", now⟩] ∧
    containsTok stopKeyword.data stopContent.data = true ∧
    ("continue" : String) ≠ "stop" ∧
    ((submitHumanMessage st sid text now).2 = none →
      messagesOf (submitHumanMessage st sid text now).1 sid =
        messagesOf st sid ++ [⟨st.nextId, sid, Role.Human, text, "continue", now⟩]) ∧
    ((startSession st sid topic now).2 = none →
      (startSession st sid topic now).1.messages =
        st.messages ++
          [⟨st.nextId, sid, Role.Human, "Let\x27s discuss: " ++ topic,
            "continue", now⟩]) := by
  refine ⟨rfl, by decide, by decide, ?_, ?_⟩
  · intro hacc
    exact (submitHumanMessage_accepted st sid text now hacc).1
  · intro hacc
    unfold startSession
    by_cases hb : blankText topic = true
    · unfold startSession at hacc
      simp [hb] at hacc
    · simp only [hb, Bool.false_eq_true, if_false]
      rfl

/-- C10 witness: the signal theorem applied to the active store — the
appended stop-marker message and an accepted human message both carry
signal `continue`. -/
theorem c10_mutation_signals_witness :
    (requestStop activeStore "s1" 5).messages =
      activeStore.messages ++
        [⟨activeStore.nextId, "s1", Role.Human, stopContent, "continue", 5⟩] ∧
    (startSession activeStore "s2" "compare caching strategies" 9).1.messages =
      activeStore.messages ++
        [⟨activeStore.nextId, "s2", Role.Human,
          "Let\x27s discuss: " ++ "compare caching strategies", "continue", 9⟩] :=
  ⟨(c10_mutation_signals activeStore "s1" "x" "t" 5).1,
   (c10_mutation_signals activeStore "s2" "x" "compare caching strategies" 9).2.2.2.2
     (by decide)⟩

end PlanAgents
